import Mathlib

/-!
Verification of the SBOM vulnerability-scanner core
(`backend/app/services/scanner.py`, `sbom_parser.py`, `trivy_service.py`,
`backend/app/celery_worker.py`) against its natural-language specification.

The Python code is shallowly embedded: pure functions become Lean functions,
the database session becomes explicit state passing, machine-level details
(logging, timestamps) are dropped because no claim mentions them.  Python
strings are modelled as `String`, with character-level operations (split,
lower, substring containment) defined over `String.data` so that every
definition evaluates by kernel reduction.
-/

/-! ## Character-level string primitives (Python `split`, `lower`, `in`,
`endswith`, `strip`) -/

/-- Python `str.split(sep)` for a one-character separator: splitting the
empty string yields `[""]`, adjacent separators yield empty segments. -/
def splitOnChar (sep : Char) : List Char → List (List Char)
  | [] => [[]]
  | c :: rest =>
    let r := splitOnChar sep rest
    if c = sep then [] :: r
    else
      match r with
      | [] => [[c]]
      | h :: t => (c :: h) :: t

/-- Bool-valued list-prefix test (building block of substring containment). -/
def prefixAt : List Char → List Char → Bool
  | [], _ => true
  | _ :: _, [] => false
  | a :: as, b :: bs => a == b && prefixAt as bs

/-- Python `needle in hay` (substring containment) on character lists. -/
def containsSub (needle : List Char) : List Char → Bool
  | [] => prefixAt needle []
  | h :: t => prefixAt needle (h :: t) || containsSub needle t

/-- Python `str.endswith(suffix)`. -/
def endsWithStr (s suffixStr : String) : Bool :=
  prefixAt suffixStr.data.reverse s.data.reverse

/-- Python `str.lower()` (ASCII range; non-ASCII letters are irrelevant to
every claim because the normalizer replaces them with `_` either way). -/
def lowerChars (l : List Char) : List Char := l.map Char.toLower

/-- Decimal numeral parse of one version segment: non-empty, all digits. -/
def digitsToNat? (l : List Char) : Option Nat :=
  if l ≠ [] ∧ l.all Char.isDigit then
    some (l.foldl (fun n c => n * 10 + (c.toNat - 48)) 0)
  else none

/-! ## Version parsing and comparison

The scanner compares versions with `packaging.version.parse`, an external
library.  Modelled from the spec: "Semantic versions are compared using
standard dotted-release-segment ordering (numeric-segment comparison, e.g.
`1.9.0 < 1.10.0`)".  A version string parses iff it is a non-empty sequence
of dot-separated decimal numerals; comparison is numeric segment-by-segment,
with missing trailing segments read as zero (`1.0 = 1.0.0`). -/

def parse_version (s : String) : Option (List Nat) :=
  (splitOnChar '.' s.data).mapM digitsToNat?

/-- Ordering on release segment lists, missing trailing segments read as 0
(structural recursion on the first list so that terms kernel-reduce). -/
def cmpRelease : List Nat → List Nat → Ordering
  | [], b => if b.all (fun x => x == 0) then Ordering.eq else Ordering.lt
  | a :: as, [] => if 0 < a then Ordering.gt else cmpRelease as []
  | a :: as, b :: bs =>
      if a < b then Ordering.lt
      else if b < a then Ordering.gt
      else cmpRelease as bs

def verLT (a b : List Nat) : Bool := cmpRelease a b == Ordering.lt

def verLE (a b : List Nat) : Bool := cmpRelease a b != Ordering.gt

/-! ## `VulnerabilityScanner._check_version_range` (scanner.py 164-217)

The Python body is a `try` block that parses the component version and each
present bound in order, early-returning `False` as soon as a bound fails;
any parse error jumps to the `except` handler, which falls back to exact
string equality against `versionStartIncluding`.  Python truthiness
(`if version_start_including:`) skips a bound that is `None` *or* the empty
string.  The `try` body is modelled as an `Option Bool` (`none` = exception
raised). -/

/-- Evaluates one bound inside the `try` block: `none` = the Python code
raises (bound present, non-empty, unparseable); `some none` = bound skipped
(absent or empty string); `some (some w)` = bound parsed to `w`. -/
def bound_eval : Option String → Option (Option (List Nat))
  | none => some none
  | some s =>
      if s = "" then some none
      else
        match parse_version s with
        | none => none
        | some w => some (some w)

/-- The `try` block of `_check_version_range`, early returns and all. -/
def range_try_body (component_version : String)
    (version_start_including version_start_excluding
      version_end_including version_end_excluding : Option String) :
    Option Bool :=
  match parse_version component_version with
  | none => none
  | some comp_ver =>
    match bound_eval version_start_including with
    | none => none
    | some osi =>
      if osi.any (fun s => verLT comp_ver s) then some false else
      match bound_eval version_start_excluding with
      | none => none
      | some ose =>
        if ose.any (fun s => verLE comp_ver s) then some false else
        match bound_eval version_end_including with
        | none => none
        | some oei =>
          if oei.any (fun s => verLT s comp_ver) then some false else
          match bound_eval version_end_excluding with
          | none => none
          | some oee =>
            if oee.any (fun s => verLE s comp_ver) then some false else
            some true

/-- The `except` handler: exact string equality against a truthy
`versionStartIncluding`. -/
def range_fallback (component_version : String)
    (version_start_including : Option String) : Bool :=
  match version_start_including with
  | some s => if s = "" then false else component_version == s
  | none => false

def check_version_range (component_version : String)
    (version_start_including version_start_excluding
      version_end_including version_end_excluding : Option String) : Bool :=
  match range_try_body component_version version_start_including
      version_start_excluding version_end_including version_end_excluding with
  | some b => b
  | none => range_fallback component_version version_start_including

/-- Spec-side reading of §4.3: a parsed version `pv` is in range iff every
present (parsed) bound holds: `startIncl ≤ pv`, `startExcl < pv`,
`pv ≤ endIncl`, `pv < endExcl`. -/
def in_range_spec (pv : List Nat)
    (si se ei ee : Option (List Nat)) : Bool :=
  (Option.all (fun w => verLE w pv) si) &&
  (Option.all (fun w => verLT w pv) se) &&
  (Option.all (fun w => verLE pv w) ei) &&
  (Option.all (fun w => verLT pv w) ee)

/-- Parses an optional bound, failing when a present bound fails to parse. -/
def opt_parse : Option String → Option (Option (List Nat))
  | none => some none
  | some s => (parse_version s).map some

/-! ### Order lemmas for `cmpRelease` -/

theorem cmpRelease_nil_swap (b : List Nat) :
    cmpRelease b [] = (cmpRelease [] b).swap := by
  induction b with
  | nil => simp [cmpRelease, Ordering.swap]
  | cons y ys ih =>
      simp only [cmpRelease, List.all_cons]
      by_cases hy : 0 < y
      · have : (y == 0) = false := by simp [Nat.pos_iff_ne_zero.mp hy]
        simp [hy, this, Ordering.swap]
      · have hy0 : y = 0 := Nat.eq_zero_of_not_pos hy
        subst hy0
        simp only [hy, if_false, ih, beq_self_eq_true, Bool.true_and]
        by_cases hall : ys.all (fun x => x == 0) <;> simp [cmpRelease, hall]

theorem cmpRelease_swap (a : List Nat) :
    ∀ b, cmpRelease b a = (cmpRelease a b).swap := by
  induction a with
  | nil =>
      intro b
      exact cmpRelease_nil_swap b
  | cons x xs ih =>
      intro b
      cases b with
      | nil =>
          have h := cmpRelease_nil_swap (x :: xs)
          rw [h, Ordering.swap_swap]
      | cons y ys =>
          simp only [cmpRelease]
          rcases lt_trichotomy x y with h | h | h
          · simp [h, not_lt.mpr (le_of_lt h), Nat.lt_asymm h, Ordering.swap]
          · simp [h, lt_irrefl, ih, Ordering.swap]
          · simp [h, not_lt.mpr (le_of_lt h), Nat.lt_asymm h, Ordering.swap]

theorem verLE_eq_not_verLT (a b : List Nat) : verLE a b = !(verLT b a) := by
  unfold verLE verLT
  rw [cmpRelease_swap b a]
  generalize cmpRelease b a = o
  cases o <;> rfl

theorem verLT_eq_not_verLE (a b : List Nat) : verLT a b = !(verLE b a) := by
  unfold verLE verLT
  rw [cmpRelease_swap b a]
  generalize cmpRelease b a = o
  cases o <;> rfl

theorem opt_parse_bound_eval {b : Option String} {ob : Option (List Nat)}
    (h : opt_parse b = some ob) : bound_eval b = some ob := by
  cases b with
  | none => simpa [opt_parse, bound_eval] using h
  | some s =>
      simp only [opt_parse, Option.map_eq_some'] at h
      obtain ⟨w, hw, rfl⟩ := h
      have hs : s ≠ "" := by
        intro he
        subst he
        rw [show parse_version "" = none from rfl] at hw
        exact Option.noConfusion hw
      simp [bound_eval, hs, hw]

theorem all_ge_any (pv : List Nat) (o : Option (List Nat)) :
    Option.all (fun w => verLE w pv) o = !(o.any fun w => verLT pv w) := by
  cases o <;> simp [Option.all, Option.any, verLE_eq_not_verLT]

theorem all_gt_any (pv : List Nat) (o : Option (List Nat)) :
    Option.all (fun w => verLT w pv) o = !(o.any fun w => verLE pv w) := by
  cases o <;> simp [Option.all, Option.any, verLT_eq_not_verLE]

theorem all_le_any (pv : List Nat) (o : Option (List Nat)) :
    Option.all (fun w => verLE pv w) o = !(o.any fun w => verLT w pv) := by
  cases o <;> simp [Option.all, Option.any, verLE_eq_not_verLT]

theorem all_lt_any (pv : List Nat) (o : Option (List Nat)) :
    Option.all (fun w => verLT pv w) o = !(o.any fun w => verLE w pv) := by
  cases o <;> simp [Option.all, Option.any, verLT_eq_not_verLE]

theorem in_range_spec_eq (pv : List Nat) (si se ei ee : Option (List Nat)) :
    in_range_spec pv si se ei ee =
      (!(si.any fun w => verLT pv w) && (!(se.any fun w => verLE pv w) &&
        (!(ei.any fun w => verLT w pv) && !(ee.any fun w => verLE w pv)))) := by
  unfold in_range_spec
  rw [all_ge_any, all_gt_any, all_le_any, all_lt_any]
  simp [Bool.and_assoc]

theorem range_try_body_eq_spec
    {v : String} {pv : List Nat} (hv : parse_version v = some pv)
    {vsi vse vei vee : Option String} {si se ei ee : Option (List Nat)}
    (hsi : opt_parse vsi = some si) (hse : opt_parse vse = some se)
    (hei : opt_parse vei = some ei) (hee : opt_parse vee = some ee) :
    range_try_body v vsi vse vei vee = some (in_range_spec pv si se ei ee) := by
  simp only [range_try_body, hv, opt_parse_bound_eval hsi,
    opt_parse_bound_eval hse, opt_parse_bound_eval hei,
    opt_parse_bound_eval hee, in_range_spec_eq]
  generalize (si.any fun w => verLT pv w) = c1
  generalize (se.any fun w => verLE pv w) = c2
  generalize (ei.any fun w => verLT w pv) = c3
  generalize (ee.any fun w => verLE w pv) = c4
  cases c1 <;> cases c2 <;> cases c3 <;> cases c4 <;> simp

/-- C1: for every component version string that parses, and bound tuples of
parseable version strings, `_check_version_range` returns true iff every
present bound holds (`v ≥ startIncl`, `v > startExcl`, `v ≤ endIncl`,
`v < endExcl`) and absent bounds impose no constraint; in particular, for
`startIncl=1.0`, `endExcl=2.0`: `0.9` no match, `1.0` match, `1.9.9` match,
`2.0` no match. -/
theorem C1_version_range_correct :
    (∀ (v : String) (pv : List Nat), parse_version v = some pv →
      ∀ (vsi vse vei vee : Option String) (si se ei ee : Option (List Nat)),
        opt_parse vsi = some si → opt_parse vse = some se →
        opt_parse vei = some ei → opt_parse vee = some ee →
        check_version_range v vsi vse vei vee = in_range_spec pv si se ei ee) ∧
    check_version_range "0.9" (some "1.0") none none (some "2.0") = false ∧
    check_version_range "1.0" (some "1.0") none none (some "2.0") = true ∧
    check_version_range "1.9.9" (some "1.0") none none (some "2.0") = true ∧
    check_version_range "2.0" (some "1.0") none none (some "2.0") = false := by
  refine ⟨?_, by decide, by decide, by decide, by decide⟩
  intro v pv hv vsi vse vei vee si se ei ee hsi hse hei hee
  unfold check_version_range
  rw [range_try_body_eq_spec hv hsi hse hei hee]

/-- Witness for C1 at the concrete input `v=1.5`, `startIncl=1.0`,
`endExcl=2.0`. -/
theorem C1_version_range_correct_witness :
    parse_version "1.5" = some [1, 5] ∧
    opt_parse (some "1.0") = some (some [1, 0]) ∧
    opt_parse (none : Option String) = some none ∧
    opt_parse (some "2.0") = some (some [2, 0]) ∧
    check_version_range "1.5" (some "1.0") none none (some "2.0") =
      in_range_spec [1, 5] (some [1, 0]) none none (some [2, 0]) :=
  ⟨by decide, by decide, by decide, by decide,
    C1_version_range_correct.1 "1.5" [1, 5] (by decide) (some "1.0") none none
      (some "2.0") (some [1, 0]) none none (some [2, 0])
      (by decide) (by decide) (by decide) (by decide)⟩

/-- C6 counterexample: the claim says the fallback returns true iff
`startIncl` is present and string-equal to the component version.  With
component version `""` (unparseable) and `startIncl = some ""` (present and
equal) the code returns `false`, because Python's `if
version_start_including:` treats the empty string as falsy. -/
theorem C6_counterexample_empty_start :
    parse_version "" = none ∧
    check_version_range "" (some "") none none none = false :=
  ⟨by decide, by decide⟩

/-- C6 (amended): when the component version string fails to parse, the
check returns true iff `startIncl` is present, *non-empty*, and exactly
string-equal to the component version; under any other bound combination
the check returns false, and the parse failure is recovered locally (the
function totally returns a Bool; no error propagates). -/
theorem C6_unparseable_fallback (v : String) (hv : parse_version v = none)
    (vsi vse vei vee : Option String) :
    check_version_range v vsi vse vei vee =
      vsi.any (fun s => !(s == "") && v == s) := by
  simp only [check_version_range, range_try_body, hv]
  cases vsi with
  | none => simp [range_fallback, Option.any]
  | some s =>
      by_cases hs : s = "" <;> simp [range_fallback, Option.any, hs]

/-- Witness for C6 (amended): unparseable version `abc` equal to the
non-empty `startIncl` bound yields true. -/
theorem C6_unparseable_fallback_witness :
    parse_version "abc" = none ∧
    check_version_range "abc" (some "abc") none none none = true := by
  constructor
  · decide
  · rw [C6_unparseable_fallback "abc" (by decide) (some "abc") none none none]
    decide

/-! ## `VulnerabilityScanner._normalize_component_name` (scanner.py 219-237)

Lowercase, replace every character outside `[a-z0-9]` by `_`
(`re.sub(r'[^a-z0-9]', '_', ·)`), collapse runs of `_` to a single `_`
(`re.sub(r'_+', '_', ·)`), strip leading and trailing `_` (`.strip('_')`). -/

/-- Membership in `[a-z0-9]`. -/
def isLowerAlnum (c : Char) : Bool :=
  ('a' ≤ c && c ≤ 'z') || ('0' ≤ c && c ≤ '9')

def isUnd (c : Char) : Bool := c == '_'

/-- Tail worker of run collapsing: drops a `_` that immediately follows
another `_` (the effect of `re.sub(r'_+', '_', ·)`). -/
def collapseUnderscores (prev : Char) : List Char → List Char
  | [] => []
  | c :: cs =>
      if prev == '_' && c == '_' then collapseUnderscores c cs
      else c :: collapseUnderscores c cs

def collapseRuns : List Char → List Char
  | [] => []
  | c :: cs => c :: collapseUnderscores c cs

def normalize_component_name (name : String) : String :=
  String.mk (List.rdropWhile isUnd (List.dropWhile isUnd
    (collapseRuns
      ((lowerChars name.data).map (fun c => if isLowerAlnum c then c else '_')))))

/-! ### Shape lemmas for the normalizer -/

theorem mem_collapseUnderscores {x : Char} (cs : List Char) :
    ∀ prev, x ∈ collapseUnderscores prev cs → x ∈ cs := by
  induction cs with
  | nil => intro prev h; simpa [collapseUnderscores] using h
  | cons c cs ih =>
      intro prev h
      by_cases hpc : (prev == '_' && c == '_') = true
      · simp only [collapseUnderscores, hpc, if_true] at h
        exact List.mem_cons_of_mem c (ih c h)
      · simp only [collapseUnderscores, hpc, if_false] at h
        rcases List.mem_cons.mp h with h | h
        · exact h ▸ List.mem_cons_self c cs
        · exact List.mem_cons_of_mem c (ih c h)

theorem mem_collapseRuns {x : Char} {l : List Char} (h : x ∈ collapseRuns l) :
    x ∈ l := by
  cases l with
  | nil => simpa [collapseRuns] using h
  | cons c cs =>
      simp only [collapseRuns] at h
      rcases List.mem_cons.mp h with h | h
      · exact h ▸ List.mem_cons_self c cs
      · exact List.mem_cons_of_mem c (mem_collapseUnderscores cs c h)

/-- No two adjacent characters of a collapsed list are both `_`. -/
theorem chain_collapseUnderscores (cs : List Char) :
    ∀ prev, List.Chain' (fun a b => ¬(a = '_' ∧ b = '_'))
      (prev :: collapseUnderscores prev cs) := by
  induction cs with
  | nil => intro prev; simp [collapseUnderscores]
  | cons c cs ih =>
      intro prev
      by_cases hpc : (prev == '_' && c == '_') = true
      · simp only [collapseUnderscores, hpc, if_true]
        have hp : prev = '_' := by
          have := (Bool.and_eq_true _ _).mp hpc
          exact eq_of_beq this.1
        have hc : c = '_' := by
          have := (Bool.and_eq_true _ _).mp hpc
          exact eq_of_beq this.2
        subst hp; subst hc
        exact ih '_'
      · simp only [collapseUnderscores, hpc, if_false]
        refine List.Chain'.cons ?_ (ih c)
        intro hand
        apply hpc
        simp [hand.1, hand.2]

theorem chain_collapseRuns (l : List Char) :
    List.Chain' (fun a b => ¬(a = '_' ∧ b = '_')) (collapseRuns l) := by
  cases l with
  | nil => simp [collapseRuns]
  | cons c cs => exact chain_collapseUnderscores cs c

theorem head_dropWhile_not (p : Char → Bool) (l : List Char) :
    ∀ c cs, l.dropWhile p = c :: cs → p c = false := by
  induction l with
  | nil => intro c cs h; simp [List.dropWhile] at h
  | cons a as ih =>
      intro c cs h
      by_cases hp : p a = true
      · rw [List.dropWhile_cons_of_pos hp] at h
        exact ih c cs h
      · rw [List.dropWhile_cons_of_neg hp] at h
        cases h
        simpa using hp

/-- A list with no two adjacent underscores does not contain `"__"`. -/
theorem chain_no_doubled {l : List Char}
    (h : List.Chain' (fun a b => ¬(a = '_' ∧ b = '_')) l) :
    containsSub ['_', '_'] l = false := by
  induction l with
  | nil => rfl
  | cons c cs ih =>
      have htail : List.Chain' (fun a b => ¬(a = '_' ∧ b = '_')) cs := h.tail
      simp only [containsSub, Bool.or_eq_false_iff]
      refine ⟨?_, ih htail⟩
      cases cs with
      | nil => simp [prefixAt]
      | cons d ds =>
          have hcd : ¬(c = '_' ∧ d = '_') := (List.chain'_cons.mp h).1
          by_cases hc : c = '_'
          · have hd : d ≠ '_' := fun hd => hcd ⟨hc, hd⟩
            subst hc
            simp [prefixAt, beq_iff_eq, Ne.symm hd]
          · simp [prefixAt, beq_iff_eq, Ne.symm hc]

theorem chain_restrict {R : Char → Char → Prop} {l l₁ : List Char}
    (h : List.Chain' R l) (h' : l₁ <:+: l) : List.Chain' R l₁ :=
  List.Chain'.infix h h'

/-- C3: name normalization is a total pure function; its result contains
only `[a-z0-9_]` characters, does not start with `_`, does not end with
`_`, and contains no doubled underscore `"__"`. -/
theorem C3_normalize_shape (name : String) :
    (normalize_component_name name).data.all
        (fun c => isLowerAlnum c || c == '_') = true ∧
    prefixAt ['_'] (normalize_component_name name).data = false ∧
    prefixAt ['_'] (normalize_component_name name).data.reverse = false ∧
    containsSub ['_', '_'] (normalize_component_name name).data = false := by
  have hFX : List.rdropWhile isUnd (List.dropWhile isUnd
      (collapseRuns ((lowerChars name.data).map
        (fun c => if isLowerAlnum c then c else '_')))) <+:
      List.dropWhile isUnd (collapseRuns ((lowerChars name.data).map
        (fun c => if isLowerAlnum c then c else '_'))) :=
    List.rdropWhile_prefix _ _
  have hXL1 : List.dropWhile isUnd (collapseRuns ((lowerChars name.data).map
      (fun c => if isLowerAlnum c then c else '_'))) <:+
      collapseRuns ((lowerChars name.data).map
        (fun c => if isLowerAlnum c then c else '_')) :=
    List.dropWhile_suffix _
  have hFL1 := List.IsInfix.trans (List.IsPrefix.isInfix hFX)
    (List.IsSuffix.isInfix hXL1)
  have hdata : (normalize_component_name name).data =
      List.rdropWhile isUnd (List.dropWhile isUnd
        (collapseRuns ((lowerChars name.data).map
          (fun c => if isLowerAlnum c then c else '_')))) := rfl
  refine ⟨?_, ?_, ?_, ?_⟩
  · rw [hdata, List.all_eq_true]
    intro c hc
    have hcL1 := (List.Sublist.subset (List.IsInfix.sublist hFL1)) hc
    have hcL0 := mem_collapseRuns hcL1
    obtain ⟨d, _, rfl⟩ := List.mem_map.mp hcL0
    by_cases hd : isLowerAlnum d = true
    · simp [hd]
    · simp [hd]
  · rw [hdata]
    cases hFc : List.rdropWhile isUnd (List.dropWhile isUnd
        (collapseRuns ((lowerChars name.data).map
          (fun c => if isLowerAlnum c then c else '_')))) with
    | nil => rfl
    | cons c cs =>
        obtain ⟨t, ht⟩ := hFX
        rw [hFc] at ht
        have hXc : List.dropWhile isUnd (collapseRuns ((lowerChars name.data).map
            (fun c => if isLowerAlnum c then c else '_'))) = c :: (cs ++ t) := by
          rw [← ht]; rfl
        have hc := head_dropWhile_not isUnd _ c (cs ++ t) hXc
        simp only [isUnd, beq_eq_false_iff_ne, ne_eq] at hc
        simp [prefixAt, beq_iff_eq, Ne.symm hc]
  · rw [hdata]
    cases hFr : (List.rdropWhile isUnd (List.dropWhile isUnd
        (collapseRuns ((lowerChars name.data).map
          (fun c => if isLowerAlnum c then c else '_'))))).reverse with
    | nil => rfl
    | cons c cs =>
        have hFne : List.rdropWhile isUnd (List.dropWhile isUnd
            (collapseRuns ((lowerChars name.data).map
              (fun c => if isLowerAlnum c then c else '_')))) ≠ [] := by
          intro h0
          rw [h0] at hFr
          simp at hFr
        have hlast := List.rdropWhile_last_not isUnd _ hFne
        have h1 : (List.rdropWhile isUnd (List.dropWhile isUnd
            (collapseRuns ((lowerChars name.data).map
              (fun c => if isLowerAlnum c then c else '_'))))).getLast? = some c := by
          rw [← List.head?_reverse, hFr]
          rfl
        rw [List.getLast?_eq_getLast_of_ne_nil hFne] at h1
        rw [Option.some_inj.mp h1] at hlast
        have hgl : c ≠ '_' := by
          intro hc
          apply hlast
          simp [isUnd, hc]
        simp [prefixAt, beq_iff_eq, Ne.symm hgl]
  · rw [hdata]
    exact chain_no_doubled (chain_restrict (chain_collapseRuns _) hFL1)

/-! ## `VulnerabilityScanner._match_cpe_product` (scanner.py 135-162)

`parts = cpe.split(':')`; fewer than 5 parts never match; `product =
parts[4].lower()`, `vendor = parts[3].lower()`; the product must
substring-match the (already normalized) component name in either
direction, or — only when `vendor` is truthy (non-empty) — the vendor or
the literal `"<vendor>_<product>"` must be a substring of the name. -/

def match_cpe_product (cpe : String) (component_name : String) : Bool :=
  let parts := splitOnChar ':' cpe.data
  if parts.length < 5 then false
  else
    let product := lowerChars (parts.getD 4 [])
    let vendor := lowerChars (parts.getD 3 [])
    if containsSub product component_name.data ||
        containsSub component_name.data product then true
    else if !vendor.isEmpty &&
        (containsSub vendor component_name.data ||
          containsSub (vendor ++ '_' :: product) component_name.data) then true
    else false

/-- Claim-side reading of C2 (follows the spec's words): product matches in
either direction, or the vendor substring-matches, or `"<vendor>_<product>"`
substring-matches — with no non-emptiness guard on the vendor. -/
def match_cpe_claim (cpe : String) (component_name : String) : Bool :=
  let parts := splitOnChar ':' cpe.data
  if parts.length < 5 then false
  else
    let product := lowerChars (parts.getD 4 [])
    let vendor := lowerChars (parts.getD 3 [])
    containsSub product component_name.data ||
    containsSub component_name.data product ||
    containsSub vendor component_name.data ||
    containsSub (vendor ++ '_' :: product) component_name.data

/-! ### `containsSub` computes substring containment (`List.IsInfix`) -/

theorem prefixAt_iff (n : List Char) : ∀ h, prefixAt n h = true ↔ n <+: h := by
  induction n with
  | nil => intro h; simp [prefixAt]
  | cons a as ih =>
      intro h
      cases h with
      | nil =>
          simp only [prefixAt, List.prefix_nil]
          simp
      | cons b bs =>
          simp only [prefixAt, Bool.and_eq_true, beq_iff_eq, ih bs,
            List.prefix_cons_iff]
          constructor
          · rintro ⟨rfl, hp⟩
            exact Or.inr ⟨as, rfl, hp⟩
          · rintro (h0 | ⟨t, ht, hp⟩)
            · exact absurd h0 (List.cons_ne_nil a as)
            · cases ht
              exact ⟨rfl, hp⟩

theorem containsSub_iff (n : List Char) : ∀ h, containsSub n h = true ↔ n <:+: h := by
  intro h
  induction h with
  | nil =>
      simp only [containsSub, prefixAt_iff, List.prefix_nil, List.infix_nil]
  | cons b bs ih =>
      simp only [containsSub, Bool.or_eq_true, prefixAt_iff, ih,
        List.infix_cons_iff]

/-- C2 counterexample: with criterion `"cpe:2.3:a::prod"` (five fields,
empty vendor field) and normalized name `"abc"`, the claim's reading is
true — the empty vendor is a substring of every name — but the code
returns false because the vendor clause is guarded by Python truthiness
(`if vendor and ...`). -/
theorem C2_counterexample_empty_vendor :
    match_cpe_product "cpe:2.3:a::prod" "abc" = false ∧
    match_cpe_claim "cpe:2.3:a::prod" "abc" = true :=
  ⟨by decide, by decide⟩

/-- C2 (amended): for a CPE criterion with at least five colon-delimited
fields, the criterion is name-eligible iff the (lowercased) product
substring-matches the normalized name in either direction, or the vendor is
*non-empty* and either the vendor or the literal `"<vendor>_<product>"` is
a substring of the normalized name; a criterion with fewer than five fields
is never name-eligible. -/
theorem C2_match_cpe_product_amended :
    (∀ (cpe compName : String),
      (splitOnChar ':' cpe.data).length < 5 →
      match_cpe_product cpe compName = false) ∧
    (∀ (cpe compName : String),
      5 ≤ (splitOnChar ':' cpe.data).length →
      (match_cpe_product cpe compName = true ↔
        (lowerChars ((splitOnChar ':' cpe.data).getD 4 []) <:+: compName.data ∨
         compName.data <:+: lowerChars ((splitOnChar ':' cpe.data).getD 4 []) ∨
         (lowerChars ((splitOnChar ':' cpe.data).getD 3 []) ≠ [] ∧
          (lowerChars ((splitOnChar ':' cpe.data).getD 3 []) <:+: compName.data ∨
           (lowerChars ((splitOnChar ':' cpe.data).getD 3 []) ++
             '_' :: lowerChars ((splitOnChar ':' cpe.data).getD 4 []))
              <:+: compName.data))))) := by
  constructor
  · intro cpe compName h5
    simp [match_cpe_product, h5]
  · intro cpe compName h5
    have h5' : ¬((splitOnChar ':' cpe.data).length < 5) := not_lt.mpr h5
    simp only [match_cpe_product, h5', if_false]
    constructor
    · intro h
      by_cases hp : (containsSub (lowerChars ((splitOnChar ':' cpe.data).getD 4 []))
          compName.data ||
          containsSub compName.data
            (lowerChars ((splitOnChar ':' cpe.data).getD 4 []))) = true
      · rcases Bool.or_eq_true _ _ |>.mp hp with h1 | h1
        · exact Or.inl ((containsSub_iff _ _).mp h1)
        · exact Or.inr (Or.inl ((containsSub_iff _ _).mp h1))
      · rw [if_neg (by simpa using hp)] at h
        split at h
        · rename_i hv
          have hv' := (Bool.and_eq_true _ _).mp hv
          refine Or.inr (Or.inr ⟨?_, ?_⟩)
          · have := hv'.1
            simpa [List.isEmpty_iff] using this
          · rcases (Bool.or_eq_true _ _).mp hv'.2 with h2 | h2
            · exact Or.inl ((containsSub_iff _ _).mp h2)
            · exact Or.inr ((containsSub_iff _ _).mp h2)
        · exact absurd h (by simp)
    · intro h
      rcases h with h1 | h1 | ⟨hne, h2 | h2⟩
      · rw [if_pos]
        apply Bool.or_eq_true _ _ |>.mpr
        exact Or.inl ((containsSub_iff _ _).mpr h1)
      · rw [if_pos]
        apply Bool.or_eq_true _ _ |>.mpr
        exact Or.inr ((containsSub_iff _ _).mpr h1)
      · by_cases hp : (containsSub (lowerChars ((splitOnChar ':' cpe.data).getD 4 []))
            compName.data ||
            containsSub compName.data
              (lowerChars ((splitOnChar ':' cpe.data).getD 4 []))) = true
        · rw [if_pos hp]
        · rw [if_neg (by simpa using hp), if_pos]
          refine (Bool.and_eq_true _ _).mpr ⟨?_, ?_⟩
          · simpa [List.isEmpty_iff] using hne
          · exact (Bool.or_eq_true _ _).mpr
              (Or.inl ((containsSub_iff _ _).mpr h2))
      · by_cases hp : (containsSub (lowerChars ((splitOnChar ':' cpe.data).getD 4 []))
            compName.data ||
            containsSub compName.data
              (lowerChars ((splitOnChar ':' cpe.data).getD 4 []))) = true
        · rw [if_pos hp]
        · rw [if_neg (by simpa using hp), if_pos]
          refine (Bool.and_eq_true _ _).mpr ⟨?_, ?_⟩
          · simpa [List.isEmpty_iff] using hne
          · exact (Bool.or_eq_true _ _).mpr
              (Or.inr ((containsSub_iff _ _).mpr h2))

/-- Witness for C2 (amended), at criterion `"cpe:2.3:a:apache:log4j"` and
normalized name `"log4j"`. -/
theorem C2_match_cpe_product_amended_witness :
    (splitOnChar ':' "c:p:e".data).length < 5 ∧
    match_cpe_product "c:p:e" "p" = false ∧
    5 ≤ (splitOnChar ':' "cpe:2.3:a:apache:log4j".data).length ∧
    (match_cpe_product "cpe:2.3:a:apache:log4j" "log4j" = true ↔
      (lowerChars ((splitOnChar ':' "cpe:2.3:a:apache:log4j".data).getD 4 [])
          <:+: "log4j".data ∨
       "log4j".data <:+:
          lowerChars ((splitOnChar ':' "cpe:2.3:a:apache:log4j".data).getD 4 []) ∨
       (lowerChars ((splitOnChar ':' "cpe:2.3:a:apache:log4j".data).getD 3 []) ≠ [] ∧
        (lowerChars ((splitOnChar ':' "cpe:2.3:a:apache:log4j".data).getD 3 [])
            <:+: "log4j".data ∨
         (lowerChars ((splitOnChar ':' "cpe:2.3:a:apache:log4j".data).getD 3 []) ++
           '_' :: lowerChars ((splitOnChar ':' "cpe:2.3:a:apache:log4j".data).getD 4 []))
            <:+: "log4j".data)))) :=
  ⟨by decide, C2_match_cpe_product_amended.1 "c:p:e" "p" (by decide),
   by decide, C2_match_cpe_product_amended.2 "cpe:2.3:a:apache:log4j" "log4j" (by decide)⟩

/-! ## Data model (scanner.py / models)

`cpe_match` is stored as structured JSON: `some ms` is a parsed criterion
list (the code's `isinstance(str)` branch re-parses a string payload; an
unparseable string payload behaves like `none` — the code returns False for
it, exactly as for a missing list). -/

structure Component where
  name : String
  version : String

structure CpeMatch where
  criteria : String
  versionStartIncluding : Option String
  versionStartExcluding : Option String
  versionEndIncluding : Option String
  versionEndExcluding : Option String

structure Vulnerability where
  severity : Option String
  cpe_match : Option (List CpeMatch)

/-- `VulnerabilityScanner._is_vulnerable` (scanner.py 93-133): Python's
`if not vulnerability.cpe_match: return False` also treats an empty list as
falsy, which coincides with `List.any` on `[]`. -/
def is_vulnerable (c : Component) (v : Vulnerability) : Bool :=
  match v.cpe_match with
  | none => false
  | some ms =>
      ms.any fun m =>
        match_cpe_product m.criteria (normalize_component_name c.name) &&
        check_version_range c.version m.versionStartIncluding
          m.versionStartExcluding m.versionEndIncluding m.versionEndExcluding

/-- C10 (implicit): a criterion with at least five colon-delimited fields
whose product field is empty is name-eligible for every component with a
non-empty normalized name (the empty string is a substring of everything),
so such a criterion subjects the component to the version-range check: for
a vulnerability carrying exactly that criterion, `_is_vulnerable` reduces
to `_check_version_range`. -/
theorem C10_empty_product_always_matches :
    (∀ (cpe compName : String),
      5 ≤ (splitOnChar ':' cpe.data).length →
      (splitOnChar ':' cpe.data).getD 4 [] = [] →
      compName ≠ "" →
      match_cpe_product cpe compName = true) ∧
    (∀ (c : Component) (m : CpeMatch) (sev : Option String),
      5 ≤ (splitOnChar ':' m.criteria.data).length →
      (splitOnChar ':' m.criteria.data).getD 4 [] = [] →
      normalize_component_name c.name ≠ "" →
      is_vulnerable c { severity := sev, cpe_match := some [m] } =
        check_version_range c.version m.versionStartIncluding
          m.versionStartExcluding m.versionEndIncluding
          m.versionEndExcluding) := by
  have hmatch : ∀ (cpe compName : String),
      5 ≤ (splitOnChar ':' cpe.data).length →
      (splitOnChar ':' cpe.data).getD 4 [] = [] →
      match_cpe_product cpe compName = true := by
    intro cpe compName h5 hprod
    have h5' : ¬((splitOnChar ':' cpe.data).length < 5) := not_lt.mpr h5
    simp only [match_cpe_product, h5', if_false, hprod]
    rw [if_pos]
    apply Bool.or_eq_true _ _ |>.mpr
    exact Or.inl (by simp [lowerChars, containsSub_iff])
  refine ⟨fun cpe compName h5 hprod _ => hmatch cpe compName h5 hprod,
    fun c m sev h5 hprod _ => ?_⟩
  simp [is_vulnerable, hmatch m.criteria (normalize_component_name c.name) h5 hprod]

/-- Witness for C10 at criterion `"cpe:2.3:a:v:"` (empty product field) and
component `("x", "1.0")`. -/
theorem C10_empty_product_always_matches_witness :
    (5 ≤ (splitOnChar ':' "cpe:2.3:a:v:".data).length ∧
      (splitOnChar ':' "cpe:2.3:a:v:".data).getD 4 [] = [] ∧
      ("x" : String) ≠ "" ∧
      match_cpe_product "cpe:2.3:a:v:" "x" = true) ∧
    (normalize_component_name "x" ≠ "" ∧
      is_vulnerable ⟨"x", "1.0"⟩
        ⟨none, some [⟨"cpe:2.3:a:v:", none, none, none, none⟩]⟩ =
        check_version_range "1.0" none none none none) :=
  ⟨⟨by decide, by decide, by decide,
    C10_empty_product_always_matches.1 "cpe:2.3:a:v:" "x" (by decide)
      (by decide) (by decide)⟩,
   ⟨by decide,
    C10_empty_product_always_matches.2 ⟨"x", "1.0"⟩
      ⟨"cpe:2.3:a:v:", none, none, none, none⟩ none (by decide) (by decide)
      (by decide)⟩⟩

/-! ## `VulnerabilityScanner.scan_components` (scanner.py 21-61)

`results['severity_counts']` is a Python dict pre-seeded with the five
standard buckets; `results['severity_counts'][severity] =
...get(severity, 0) + 1` updates an existing key in place or appends a new
key (so an unrecognized severity creates its own ad-hoc bucket).  The dict
is modelled as an association list updated at the first matching key. -/

/-- Python `d[k] = d.get(k, 0) + 1`. -/
def bump : List (String × Nat) → String → List (String × Nat)
  | [], k => [(k, 1)]
  | (a, n) :: rest, k =>
      if a == k then (a, n + 1) :: rest else (a, n) :: bump rest k

/-- Python `d.get(k, 0)`. -/
def lookup0 : List (String × Nat) → String → Nat
  | [], _ => 0
  | (a, n) :: rest, k => if a == k then n else lookup0 rest k

def sum_counts (m : List (String × Nat)) : Nat := (m.map Prod.snd).sum

def init_severity_counts : List (String × Nat) :=
  [("CRITICAL", 0), ("HIGH", 0), ("MEDIUM", 0), ("LOW", 0), ("UNKNOWN", 0)]

/-- Python `vuln.severity or 'UNKNOWN'` (`None` and `""` are falsy). -/
def severity_key : Option String → String
  | none => "UNKNOWN"
  | some s => if s = "" then "UNKNOWN" else s

structure ScanAgg where
  total_components : Nat
  vulnerable_components : List (Component × List Vulnerability)
  vulnerabilities_found : List Vulnerability
  severity_counts : List (String × Nat)

/-- One iteration of the `for component in components` loop. -/
def scan_step (candidates : List Vulnerability) (acc : ScanAgg)
    (c : Component) : ScanAgg :=
  let vulns := candidates.filter (fun v => is_vulnerable c v)
  if vulns.isEmpty then acc
  else
    { acc with
      vulnerable_components := acc.vulnerable_components ++ [(c, vulns)]
      vulnerabilities_found := acc.vulnerabilities_found ++ vulns
      severity_counts :=
        vulns.foldl (fun m v => bump m (severity_key v.severity))
          acc.severity_counts }

/-- `scan_components`: the candidate list models the store view (all
vulnerabilities with non-null `cpe_match`). -/
def scan_components (components : List Component)
    (candidates : List Vulnerability) : ScanAgg :=
  components.foldl (scan_step candidates)
    { total_components := components.length
      vulnerable_components := []
      vulnerabilities_found := []
      severity_counts := init_severity_counts }

/-! ### Aggregation lemmas -/

theorem lookup0_bump (m : List (String × Nat)) (k k' : String) :
    lookup0 (bump m k) k' = lookup0 m k' + (if k == k' then 1 else 0) := by
  induction m with
  | nil =>
      simp only [bump, lookup0]
      by_cases h : k == k' <;> simp [h]
  | cons p rest ih =>
      rcases p with ⟨a, n⟩
      by_cases ha : a == k
      · have ha' : a = k := by simpa using ha
        subst ha'
        simp only [bump, beq_self_eq_true, if_true, lookup0]
        by_cases h' : a == k' <;> simp [h']
      · simp only [bump, ha, if_false, lookup0]
        by_cases h' : a == k'
        · have h1 : a = k' := by simpa using h'
          have h2 : (k == k') = false := by
            apply beq_eq_false_iff_ne.mpr
            intro hk
            exact ha (by simp [h1 ▸ hk])
          simp [h', h2]
        · simp [h', ih]

theorem sum_counts_bump (m : List (String × Nat)) (k : String) :
    sum_counts (bump m k) = sum_counts m + 1 := by
  induction m with
  | nil => simp [bump, sum_counts]
  | cons p rest ih =>
      rcases p with ⟨a, n⟩
      by_cases ha : a == k
      · simp [bump, ha, sum_counts]
        omega
      · have ha' : (a == k) = false := by simpa using ha
        simp [bump, ha', sum_counts] at ih ⊢
        omega

theorem lookup0_foldl_bump (vulns : List Vulnerability) :
    ∀ (m : List (String × Nat)) (k : String),
      lookup0 (vulns.foldl (fun m v => bump m (severity_key v.severity)) m) k =
        lookup0 m k + vulns.countP (fun v => severity_key v.severity == k) := by
  induction vulns with
  | nil => intro m k; simp
  | cons v vs ih =>
      intro m k
      simp only [List.foldl_cons, ih, lookup0_bump, List.countP_cons]
      by_cases h : (severity_key v.severity == k) = true <;> simp [h] <;> omega

theorem sum_counts_foldl_bump (vulns : List Vulnerability) :
    ∀ m : List (String × Nat),
      sum_counts (vulns.foldl (fun m v => bump m (severity_key v.severity)) m) =
        sum_counts m + vulns.length := by
  induction vulns with
  | nil => intro m; simp
  | cons v vs ih =>
      intro m
      simp only [List.foldl_cons, ih, sum_counts_bump, List.length_cons]
      omega

theorem scan_step_spec (candidates : List Vulnerability) (acc : ScanAgg)
    (c : Component) :
    (scan_step candidates acc c).vulnerabilities_found =
      acc.vulnerabilities_found ++ candidates.filter (fun v => is_vulnerable c v) ∧
    (scan_step candidates acc c).severity_counts =
      (candidates.filter (fun v => is_vulnerable c v)).foldl
        (fun m v => bump m (severity_key v.severity)) acc.severity_counts ∧
    (scan_step candidates acc c).vulnerable_components.length ≤
      acc.vulnerable_components.length + 1 ∧
    (scan_step candidates acc c).total_components = acc.total_components := by
  by_cases hv : (candidates.filter (fun v => is_vulnerable c v)).isEmpty
  · have he : candidates.filter (fun v => is_vulnerable c v) = [] :=
      List.isEmpty_iff.mp hv
    refine ⟨?_, ?_, ?_, ?_⟩ <;> simp [scan_step, hv, he]
  · refine ⟨?_, ?_, ?_, ?_⟩ <;> simp [scan_step, hv]

theorem scan_foldl_delta (candidates : List Vulnerability) :
    ∀ (components : List Component) (acc : ScanAgg),
      ∃ Δ : List Vulnerability,
        (components.foldl (scan_step candidates) acc).vulnerabilities_found =
          acc.vulnerabilities_found ++ Δ ∧
        (∀ k, lookup0
            ((components.foldl (scan_step candidates) acc).severity_counts) k =
          lookup0 acc.severity_counts k +
            Δ.countP (fun v => severity_key v.severity == k)) ∧
        sum_counts ((components.foldl (scan_step candidates) acc).severity_counts) =
          sum_counts acc.severity_counts + Δ.length ∧
        ((components.foldl (scan_step candidates) acc).vulnerable_components).length ≤
          acc.vulnerable_components.length + components.length ∧
        (components.foldl (scan_step candidates) acc).total_components =
          acc.total_components := by
  intro components
  induction components with
  | nil =>
      intro acc
      exact ⟨[], by simp, by simp, by simp, by simp, rfl⟩
  | cons c rest ih =>
      intro acc
      obtain ⟨Δ', h1, h2, h3, h4, h5⟩ := ih (scan_step candidates acc c)
      obtain ⟨s1, s2, s3, s4⟩ := scan_step_spec candidates acc c
      refine ⟨candidates.filter (fun v => is_vulnerable c v) ++ Δ', ?_, ?_, ?_, ?_, ?_⟩
      · simp only [List.foldl_cons] at h1 ⊢
        rw [h1, s1, List.append_assoc]
      · intro k
        simp only [List.foldl_cons] at h2 ⊢
        rw [h2 k, s2, lookup0_foldl_bump, List.countP_append]
        omega
      · simp only [List.foldl_cons] at h3 ⊢
        rw [h3, s2, sum_counts_foldl_bump, List.length_append]
        omega
      · simp only [List.foldl_cons, List.length_cons] at h4 ⊢
        omega
      · simp only [List.foldl_cons] at h5 ⊢
        rw [h5, s4]

theorem lookup0_all_zero :
    ∀ (m : List (String × Nat)), (∀ p ∈ m, p.2 = 0) → ∀ k, lookup0 m k = 0 := by
  intro m
  induction m with
  | nil => intro _ k; rfl
  | cons p rest ih =>
      intro h k
      rcases p with ⟨a, n⟩
      have hn : n = 0 := h (a, n) (List.mem_cons_self _ _)
      subst hn
      simp only [lookup0]
      by_cases hak : (a == k) = true
      · simp [hak]
      · have hak' : (a == k) = false := by simpa using hak
        simp [hak', ih (fun q hq => h q (List.mem_cons_of_mem _ hq)) k]

theorem lookup0_init (k : String) : lookup0 init_severity_counts k = 0 :=
  lookup0_all_zero init_severity_counts (by decide) k

/-- C4 counterexample: a single match whose severity is the unrecognized
string `"BOGUS"`.  The code increments a fresh ad-hoc `"BOGUS"` bucket and
leaves `UNKNOWN` at zero, whereas the claim says unrecognized severities
fall into the `UNKNOWN` bucket. -/
theorem C4_counterexample_unrecognized_severity :
    (scan_components [⟨"log4j", "1.0"⟩]
      [⟨some "BOGUS",
        some [⟨"cpe:2.3:a:apache:log4j", none, none, none, none⟩]⟩]
      ).vulnerabilities_found.length = 1 ∧
    lookup0 (scan_components [⟨"log4j", "1.0"⟩]
      [⟨some "BOGUS",
        some [⟨"cpe:2.3:a:apache:log4j", none, none, none, none⟩]⟩]
      ).severity_counts "UNKNOWN" = 0 ∧
    lookup0 (scan_components [⟨"log4j", "1.0"⟩]
      [⟨some "BOGUS",
        some [⟨"cpe:2.3:a:apache:log4j", none, none, none, none⟩]⟩]
      ).severity_counts "BOGUS" = 1 :=
  ⟨by decide, by decide, by decide⟩

/-- C4 (amended): every (component, vulnerability) match increments exactly
one severity bucket, namely the bucket named by `severity or 'UNKNOWN'`:
for every key `k`, the final count at `k` equals the number of match pairs
whose key is `k`.  The `UNKNOWN` bucket is used exactly when the severity
is absent or empty; an unrecognized non-empty severity string creates and
increments its own ad-hoc bucket instead of `UNKNOWN`. -/
theorem C4_severity_bucket_amended (components : List Component)
    (candidates : List Vulnerability) (k : String) :
    lookup0 (scan_components components candidates).severity_counts k =
      List.countP (fun v => severity_key v.severity == k)
        (scan_components components candidates).vulnerabilities_found ∧
    severity_key none = "UNKNOWN" ∧
    (∀ s : String, severity_key (some s) = if s = "" then "UNKNOWN" else s) := by
  refine ⟨?_, rfl, fun s => rfl⟩
  unfold scan_components
  obtain ⟨Δ, h1, h2, _, _, _⟩ := scan_foldl_delta candidates components
    ⟨components.length, [], [], init_severity_counts⟩
  rw [h2 k, h1, lookup0_init]
  simp

/-- C5: the severity-count values sum to the total number of (component,
vulnerability) match pairs, and the number of distinct components with at
least one match never exceeds the number of components. -/
theorem C5_severity_sum_and_vulnerable_bound (components : List Component)
    (candidates : List Vulnerability) :
    sum_counts (scan_components components candidates).severity_counts =
      (scan_components components candidates).vulnerabilities_found.length ∧
    (scan_components components candidates).vulnerable_components.length ≤
      (scan_components components candidates).total_components := by
  unfold scan_components
  obtain ⟨Δ, h1, _, h3, h4, h5⟩ := scan_foldl_delta candidates components
    ⟨components.length, [], [], init_severity_counts⟩
  constructor
  · rw [h3, h1]
    simp [sum_counts, init_severity_counts]
  · rw [h5]
    simpa using h4

/-! ## `SBOMParser.parse` (sbom_parser.py 29-99)

`parse(content, filename)` first selects the *encoding* branch purely by
filename extension (`.json` / `.xml`), then inside each branch selects the
dialect by content: JSON by top-level keys (`bomFormat == "CycloneDX"`,
else presence of `spdxVersion`), XML by a substring of the lowercased root
tag (`cyclonedx` first, then `spdx`).  The payload is modelled by what the
routing inspects: the decoded top-level JSON keys (`none` = `json.loads`
raised) and the XML root tag (`none` = `ET.fromstring` raised).  All raised
`SBOMParserException`s are collapsed to `Except.error`. -/

inductive JVal where
  | str (s : String)
  | other
deriving DecidableEq

inductive Route where
  | cyclonedxJson
  | spdxJson
  | cyclonedxXml
  | spdxXml
deriving DecidableEq

structure JsonDoc where
  topKeys : List (String × JVal)

structure RawContent where
  asJson : Option JsonDoc
  xmlRootTag : Option String

/-- Python `data[k]` for a top-level key (first binding wins). -/
def jsonLookup (d : JsonDoc) (k : String) : Option JVal :=
  (d.topKeys.find? (fun p => p.1 == k)).map Prod.snd

/-- `SBOMParser._parse_json` routing (sbom_parser.py 61-79). -/
def parse_json_route (d : JsonDoc) : Except String Route :=
  if jsonLookup d "bomFormat" = some (JVal.str "CycloneDX") then
    Except.ok Route.cyclonedxJson
  else
    match jsonLookup d "spdxVersion" with
    | some _ => Except.ok Route.spdxJson
    | none => Except.error "Unknown SBOM format in JSON"

/-- `SBOMParser._parse_xml` routing (sbom_parser.py 81-99). -/
def parse_xml_route (rootTag : String) : Except String Route :=
  if containsSub "cyclonedx".data (lowerChars rootTag.data) then
    Except.ok Route.cyclonedxXml
  else if containsSub "spdx".data (lowerChars rootTag.data) then
    Except.ok Route.spdxXml
  else Except.error "Unknown SBOM format in XML"

/-- `SBOMParser.parse` (sbom_parser.py 29-59): encoding chosen by filename
extension, dialect chosen by content. -/
def sbom_parse_route (content : RawContent) (filename : String) :
    Except String Route :=
  if endsWithStr filename ".json" then
    match content.asJson with
    | none => Except.error "Invalid JSON"
    | some d => parse_json_route d
  else if endsWithStr filename ".xml" then
    match content.xmlRootTag with
    | none => Except.error "Invalid XML"
    | some tag => parse_xml_route tag
  else Except.error "Unsupported file format"

/-- C7 counterexample: a payload that decodes as CycloneDX JSON
(`bomFormat == "CycloneDX"`) but arrives under an `.xml` filename is routed
to the XML branch and fails; the dialect routing is reached only inside the
encoding branch chosen by the filename extension alone. -/
theorem C7_counterexample_json_with_xml_filename :
    jsonLookup ⟨[("bomFormat", JVal.str "CycloneDX")]⟩ "bomFormat" =
      some (JVal.str "CycloneDX") ∧
    sbom_parse_route ⟨some ⟨[("bomFormat", JVal.str "CycloneDX")]⟩, none⟩
      "bom.xml" = Except.error "Invalid XML" ∧
    sbom_parse_route ⟨some ⟨[("bomFormat", JVal.str "CycloneDX")]⟩, none⟩
      "bom.xml" ≠ Except.ok Route.cyclonedxJson :=
  ⟨by decide, rfl, fun h => by
    rw [show sbom_parse_route ⟨some ⟨[("bomFormat", JVal.str "CycloneDX")]⟩, none⟩
        "bom.xml" = Except.error "Invalid XML" from rfl] at h
    exact Except.noConfusion h⟩

/-- C7 (amended): *dialect* detection is content-based inside the encoding
branch selected by the filename extension: under a `.json` filename, a
decodable JSON payload routes to CycloneDX iff `bomFormat == "CycloneDX"`,
otherwise to SPDX iff `spdxVersion` is present, otherwise `ParseError`;
under an `.xml` filename, a decodable XML payload routes to CycloneDX iff
the lowercased root tag contains `"cyclonedx"`, otherwise to SPDX iff it
contains `"spdx"`, otherwise `ParseError`. -/
theorem C7_format_detection_amended :
    (∀ (content : RawContent) (filename : String) (d : JsonDoc),
      content.asJson = some d → endsWithStr filename ".json" = true →
      ((sbom_parse_route content filename = Except.ok Route.cyclonedxJson ↔
          jsonLookup d "bomFormat" = some (JVal.str "CycloneDX")) ∧
       (sbom_parse_route content filename = Except.ok Route.spdxJson ↔
          (jsonLookup d "bomFormat" ≠ some (JVal.str "CycloneDX") ∧
           (jsonLookup d "spdxVersion").isSome = true)) ∧
       ((∃ msg, sbom_parse_route content filename = Except.error msg) ↔
          (jsonLookup d "bomFormat" ≠ some (JVal.str "CycloneDX") ∧
           jsonLookup d "spdxVersion" = none)))) ∧
    (∀ (content : RawContent) (filename tag : String),
      content.xmlRootTag = some tag → endsWithStr filename ".json" = false →
      endsWithStr filename ".xml" = true →
      ((sbom_parse_route content filename = Except.ok Route.cyclonedxXml ↔
          containsSub "cyclonedx".data (lowerChars tag.data) = true) ∧
       (sbom_parse_route content filename = Except.ok Route.spdxXml ↔
          (containsSub "cyclonedx".data (lowerChars tag.data) = false ∧
           containsSub "spdx".data (lowerChars tag.data) = true)) ∧
       ((∃ msg, sbom_parse_route content filename = Except.error msg) ↔
          (containsSub "cyclonedx".data (lowerChars tag.data) = false ∧
           containsSub "spdx".data (lowerChars tag.data) = false)))) := by
  constructor
  · intro content filename d hj hf
    simp only [sbom_parse_route, hf, if_true, hj]
    by_cases hb : jsonLookup d "bomFormat" = some (JVal.str "CycloneDX")
    · simp [parse_json_route, hb]
    · cases hs : jsonLookup d "spdxVersion" with
      | none => simp [parse_json_route, hb, hs]
      | some v => simp [parse_json_route, hb, hs]
  · intro content filename tag hx hfj hfx
    simp only [sbom_parse_route, hfj, Bool.false_eq_true, if_false, hfx,
      if_true, hx]
    by_cases hc : containsSub "cyclonedx".data (lowerChars tag.data) = true
    · simp [parse_xml_route, hc]
    · have hc' : containsSub "cyclonedx".data (lowerChars tag.data) = false := by
        simpa using hc
      by_cases hsp : containsSub "spdx".data (lowerChars tag.data) = true
      · simp [parse_xml_route, hc', hsp]
      · have hsp' : containsSub "spdx".data (lowerChars tag.data) = false := by
          simpa using hsp
        simp [parse_xml_route, hc', hsp']

/-- Witness for C7 (amended) at a CycloneDX JSON payload under a `.json`
filename and a CycloneDX XML root tag under an `.xml` filename. -/
theorem C7_format_detection_amended_witness :
    ((⟨some ⟨[("bomFormat", JVal.str "CycloneDX")]⟩, none⟩ :
        RawContent).asJson = some ⟨[("bomFormat", JVal.str "CycloneDX")]⟩ ∧
      endsWithStr "bom.json" ".json" = true ∧
      (sbom_parse_route ⟨some ⟨[("bomFormat", JVal.str "CycloneDX")]⟩, none⟩
          "bom.json" = Except.ok Route.cyclonedxJson ↔
        jsonLookup ⟨[("bomFormat", JVal.str "CycloneDX")]⟩ "bomFormat" =
          some (JVal.str "CycloneDX"))) ∧
    ((⟨none, some "CycloneDX-bom"⟩ : RawContent).xmlRootTag =
        some "CycloneDX-bom" ∧
      endsWithStr "bom.xml" ".json" = false ∧
      endsWithStr "bom.xml" ".xml" = true ∧
      (sbom_parse_route ⟨none, some "CycloneDX-bom"⟩ "bom.xml" =
          Except.ok Route.cyclonedxXml ↔
        containsSub "cyclonedx".data (lowerChars "CycloneDX-bom".data) = true)) :=
  ⟨⟨rfl, by decide,
    (C7_format_detection_amended.1 ⟨some ⟨[("bomFormat", JVal.str "CycloneDX")]⟩, none⟩
      "bom.json" ⟨[("bomFormat", JVal.str "CycloneDX")]⟩ rfl (by decide)).1⟩,
   ⟨rfl, by decide, by decide,
    (C7_format_detection_amended.2 ⟨none, some "CycloneDX-bom"⟩ "bom.xml"
      "CycloneDX-bom" rfl (by decide) (by decide)).1⟩⟩

/-! ## `TrivyService.scan_sbom` (trivy_service.py 86-178),
`TrivyService._parse_trivy_result` (trivy_service.py 180-257) and the
Celery scan task `scan_sbom` (celery_worker.py 80-231)

The subprocess invocation is modelled by its observable outcome: the exit
code and the structured report decoded from stdout (`none` = `json.loads`
raised, which the outer `except Exception` turns into a failed result).
The Celery task is modelled from the point where the SBOM row was found:
it runs Trivy, raises when the Trivy status is not `"success"`, and on the
exception path writes a best-effort `failed` `ScanResult` row and no
`ScanVulnerability` rows. -/

structure TrivyFinding where
  severity : String
  pkgName : String
  installedVersion : String

structure TrivyTarget where
  vulnerabilities : List TrivyFinding

structure TrivyReport where
  results : List TrivyTarget

structure TrivyScanResult where
  status : String
  vulnerabilities : List TrivyFinding
  severity_counts : List (String × Nat)
  vulnerable_components_count : Nat
  total_vulnerabilities : Nat

/-- Python `if severity in severity_counts: ... += 1 else:
severity_counts["UNKNOWN"] += 1` (trivy_service.py 243-246). -/
def trivy_bump_known (m : List (String × Nat)) (sev : String) :
    List (String × Nat) :=
  if (m.find? (fun p => p.1 == sev)).isSome then bump m sev
  else bump m "UNKNOWN"

/-- Python `set.add` on the `"pkg@version"` strings. -/
def insertUnique (l : List String) (s : String) : List String :=
  if l.contains s then l else l ++ [s]

def parse_trivy_result (report : TrivyReport) : TrivyScanResult :=
  let allFindings := (report.results.map (fun t => t.vulnerabilities)).flatten
  { status := "success"
    vulnerabilities := allFindings
    severity_counts :=
      allFindings.foldl (fun m v => trivy_bump_known m v.severity)
        init_severity_counts
    vulnerable_components_count :=
      (allFindings.foldl
        (fun s v => insertUnique s (v.pkgName ++ "@" ++ v.installedVersion))
        []).length
    total_vulnerabilities := allFindings.length }

structure ProcResult where
  exitCode : Int
  stdoutReport : Option TrivyReport

def trivy_failed_result (_msg : String) : TrivyScanResult :=
  { status := "failed"
    vulnerabilities := []
    severity_counts := init_severity_counts
    vulnerable_components_count := 0
    total_vulnerabilities := 0 }

def trivy_scan_sbom (proc : ProcResult) : TrivyScanResult :=
  if proc.exitCode = 0 ∨ proc.exitCode = 1 then
    match proc.stdoutReport with
    | some report => parse_trivy_result report
    | none => trivy_failed_result "Trivy scan error: invalid JSON output"
  else trivy_failed_result "Trivy scan failed"

structure ScanResultRow where
  status : String
  total_components : Nat
  vulnerable_count : Nat

structure ScanVulnRow where
  component_name : String
  component_version : String

structure JobOutcome where
  status : String
  scanResults : List ScanResultRow
  scanVulns : List ScanVulnRow

/-- The Celery `scan_sbom` task from the Trivy invocation onward
(celery_worker.py 118-228): a non-`"success"` Trivy status raises, and the
`except` handler records one best-effort `failed` row and returns a failed
outcome with no `ScanVulnerability` rows. -/
def celery_scan_sbom (totalComponents : Nat) (proc : ProcResult) : JobOutcome :=
  let scan_results := trivy_scan_sbom proc
  if scan_results.status ≠ "success" then
    { status := "failed"
      scanResults := [⟨"failed", 0, 0⟩]
      scanVulns := [] }
  else
    { status := "success"
      scanResults :=
        [⟨"completed", totalComponents, scan_results.vulnerable_components_count⟩]
      scanVulns := scan_results.vulnerabilities.map
        (fun v => ⟨v.pkgName, v.installedVersion⟩) }

/-- C8: exit codes 0 and 1 are both successful completion (the decoded
report is parsed into the match result); any other exit code, or a failure
to decode the tool's JSON stdout, yields a failed (scan-tool error)
result; consequently on exit code 2 the job terminates `failed` with only
a `failed`-status `ScanResult` row and zero `ScanVulnerability` rows. -/
theorem C8_exit_code_policy (proc : ProcResult) (totalComponents : Nat) :
    (∀ report, (proc.exitCode = 0 ∨ proc.exitCode = 1) →
      proc.stdoutReport = some report →
      trivy_scan_sbom proc = parse_trivy_result report ∧
      (trivy_scan_sbom proc).status = "success") ∧
    ((proc.exitCode ≠ 0 ∧ proc.exitCode ≠ 1) ∨ proc.stdoutReport = none →
      (trivy_scan_sbom proc).status = "failed") ∧
    (proc.exitCode = 2 →
      (celery_scan_sbom totalComponents proc).status = "failed" ∧
      (celery_scan_sbom totalComponents proc).scanVulns = [] ∧
      ∀ row ∈ (celery_scan_sbom totalComponents proc).scanResults,
        row.status = "failed") := by
  refine ⟨?_, ?_, ?_⟩
  · intro report hcode hout
    constructor
    · simp [trivy_scan_sbom, hcode, hout]
    · simp [trivy_scan_sbom, hcode, hout, parse_trivy_result]
  · intro h
    rcases h with ⟨h0, h1⟩ | hnone
    · have hc : ¬(proc.exitCode = 0 ∨ proc.exitCode = 1) := by
        rintro (h | h)
        · exact h0 h
        · exact h1 h
      simp [trivy_scan_sbom, hc, trivy_failed_result]
    · by_cases hc : proc.exitCode = 0 ∨ proc.exitCode = 1
      · simp [trivy_scan_sbom, hc, hnone, trivy_failed_result]
      · simp [trivy_scan_sbom, hc, trivy_failed_result]
  · intro h2
    have hc : ¬(proc.exitCode = 0 ∨ proc.exitCode = 1) := by
      rintro (h | h) <;> rw [h2] at h <;> exact absurd h (by decide)
    have hfail : (trivy_scan_sbom proc).status = "failed" := by
      simp [trivy_scan_sbom, hc, trivy_failed_result]
    refine ⟨?_, ?_, ?_⟩
    · simp [celery_scan_sbom, hfail]
    · simp [celery_scan_sbom, hfail]
    · intro row hrow
      simp [celery_scan_sbom, hfail] at hrow
      rw [hrow]

/-- Witness for C8: exit code 1 with a decodable empty report is a
success; exit code 2 produces a failed job with no vulnerability rows. -/
theorem C8_exit_code_policy_witness :
    ((2 : Int) = 0 ∨ (2 : Int) = 1 → False) ∧
    (((⟨1, some ⟨[]⟩⟩ : ProcResult).exitCode = 0 ∨
        (⟨1, some ⟨[]⟩⟩ : ProcResult).exitCode = 1) ∧
      (⟨1, some ⟨[]⟩⟩ : ProcResult).stdoutReport = some ⟨[]⟩ ∧
      (trivy_scan_sbom ⟨1, some ⟨[]⟩⟩ = parse_trivy_result ⟨[]⟩ ∧
        (trivy_scan_sbom ⟨1, some ⟨[]⟩⟩).status = "success")) ∧
    ((⟨2, none⟩ : ProcResult).exitCode = 2 ∧
      ((celery_scan_sbom 0 ⟨2, none⟩).status = "failed" ∧
        (celery_scan_sbom 0 ⟨2, none⟩).scanVulns = [] ∧
        ∀ row ∈ (celery_scan_sbom 0 ⟨2, none⟩).scanResults,
          row.status = "failed")) :=
  ⟨by decide,
   ⟨Or.inr rfl, rfl,
    (C8_exit_code_policy ⟨1, some ⟨[]⟩⟩ 0).1 ⟨[]⟩ (Or.inr rfl) rfl⟩,
   ⟨rfl, (C8_exit_code_policy ⟨2, none⟩ 0).2.2 rfl⟩⟩

/-! ## `VulnerabilityScanner.save_scan_result` (scanner.py 239-294)

Modelled from the spec: the SQLAlchemy session is a transaction —
`add` stages a row in the pending set, `flush` sends pending rows to the
transaction (no visibility to other readers, it only assigns ids),
`commit` makes all pending rows visible atomically, `rollback` discards
all pending rows.  `save_scan_result` adds the `ScanResult` row, flushes,
adds one `ScanVulnerability` row per (component, vulnerability) pair, then
commits; any exception triggers `except: rollback; raise`.  The failure
point is abstracted by `failAt`: `some i` means the `i`-th
`ScanVulnerability` write raises. -/

inductive DBRow where
  | scanResult (r : ScanResultRow)
  | scanVuln (v : ScanVulnRow)

structure Session where
  committed : List DBRow
  pending : List DBRow

def db_add (s : Session) (r : DBRow) : Session :=
  { s with pending := s.pending ++ [r] }

def db_commit (s : Session) : Session :=
  { committed := s.committed ++ s.pending, pending := [] }

def db_rollback (s : Session) : Session :=
  { s with pending := [] }

/-- `save_scan_result`: returns the session and `true` on commit, or the
rolled-back session and `false` when the `failAt`-th vulnerability write
raised (the exception is re-raised to the caller after the rollback). -/
def save_scan_result (s : Session) (res : ScanResultRow)
    (vulns : List ScanVulnRow) (failAt : Option Nat) : Session × Bool :=
  let s1 := db_add s (DBRow.scanResult res)
  match failAt with
  | some i =>
      if i < vulns.length then
        let s2 := (vulns.take i).foldl (fun t v => db_add t (DBRow.scanVuln v)) s1
        (db_rollback s2, false)
      else
        let s2 := vulns.foldl (fun t v => db_add t (DBRow.scanVuln v)) s1
        (db_commit s2, true)
  | none =>
      let s2 := vulns.foldl (fun t v => db_add t (DBRow.scanVuln v)) s1
      (db_commit s2, true)

theorem foldl_db_add_committed (vulns : List ScanVulnRow) :
    ∀ s : Session,
      (vulns.foldl (fun t v => db_add t (DBRow.scanVuln v)) s).committed =
        s.committed ∧
      (vulns.foldl (fun t v => db_add t (DBRow.scanVuln v)) s).pending =
        s.pending ++ vulns.map DBRow.scanVuln := by
  induction vulns with
  | nil => intro s; simp
  | cons v vs ih =>
      intro s
      simp only [List.foldl_cons, List.map_cons]
      obtain ⟨h1, h2⟩ := ih (db_add s (DBRow.scanVuln v))
      refine ⟨h1, ?_⟩
      rw [h2]
      simp [db_add]

/-- C9: persistence is atomic.  Starting from a session with no pending
writes, if the `i`-th `ScanVulnerability` write fails, the transaction is
rolled back and the committed store is exactly what it was before — zero
rows of the scan (including the `ScanResult` row) are visible; if no write
fails, the `ScanResult` row and all of its `ScanVulnerability` rows become
visible together in a single commit. -/
theorem C9_atomic_persistence (s : Session) (hpending : s.pending = [])
    (res : ScanResultRow) (vulns : List ScanVulnRow) :
    (∀ i, i < vulns.length →
      (save_scan_result s res vulns (some i)).1.committed = s.committed ∧
      (save_scan_result s res vulns (some i)).2 = false) ∧
    ((save_scan_result s res vulns none).1.committed =
        s.committed ++ DBRow.scanResult res :: vulns.map DBRow.scanVuln ∧
      (save_scan_result s res vulns none).2 = true) := by
  constructor
  · intro i hi
    obtain ⟨h1, _⟩ := foldl_db_add_committed (vulns.take i)
      (db_add s (DBRow.scanResult res))
    constructor
    · simp only [save_scan_result, hi, if_true]
      rw [show ∀ t : Session, (db_rollback t).committed = t.committed
          from fun t => rfl, h1]
      rfl
    · simp [save_scan_result, hi]
  · obtain ⟨h1, h2⟩ := foldl_db_add_committed vulns
      (db_add s (DBRow.scanResult res))
    constructor
    · simp only [save_scan_result]
      rw [show ∀ t : Session, (db_commit t).committed = t.committed ++ t.pending
          from fun t => rfl, h1, h2]
      simp [db_add, hpending]
    · simp [save_scan_result]

/-- Witness for C9 at a two-row scan over an initially empty session:
failure at index 0 leaves the store empty; the no-failure run commits the
`ScanResult` row and both `ScanVulnerability` rows together. -/
theorem C9_atomic_persistence_witness :
    (Session.mk [] []).pending = [] ∧
    (0 < ([⟨"a", "1"⟩, ⟨"b", "2"⟩] : List ScanVulnRow).length ∧
      (save_scan_result ⟨[], []⟩ ⟨"completed", 2, 1⟩
        [⟨"a", "1"⟩, ⟨"b", "2"⟩] (some 0)).1.committed = [] ∧
      (save_scan_result ⟨[], []⟩ ⟨"completed", 2, 1⟩
        [⟨"a", "1"⟩, ⟨"b", "2"⟩] (some 0)).2 = false) ∧
    ((save_scan_result ⟨[], []⟩ ⟨"completed", 2, 1⟩
        [⟨"a", "1"⟩, ⟨"b", "2"⟩] none).1.committed =
      [] ++ DBRow.scanResult ⟨"completed", 2, 1⟩ ::
        ([⟨"a", "1"⟩, ⟨"b", "2"⟩] : List ScanVulnRow).map DBRow.scanVuln ∧
      (save_scan_result ⟨[], []⟩ ⟨"completed", 2, 1⟩
        [⟨"a", "1"⟩, ⟨"b", "2"⟩] none).2 = true) :=
  ⟨rfl,
   ⟨by decide,
    (C9_atomic_persistence ⟨[], []⟩ rfl ⟨"completed", 2, 1⟩
      [⟨"a", "1"⟩, ⟨"b", "2"⟩]).1 0 (by decide)⟩,
   (C9_atomic_persistence ⟨[], []⟩ rfl ⟨"completed", 2, 1⟩
      [⟨"a", "1"⟩, ⟨"b", "2"⟩]).2⟩
